import Mathlib

/-!
Shallow embedding of the topic-based publish/subscribe broker in
`temp_pub_sub.py`.

The broker keeps two parallel structures, both Python dicts:
  * `subscribers : topic → (subscriber_id → stream context)`
  * `topic_subscribers_mutex : (topic, subscriber_id) → threading.Lock`

Python dicts are modelled as association lists preserving insertion order
(`dGet?` looks up the first binding, `dSet` overwrites in place or appends,
`dDel` removes the binding).  A bare Python `del d[k]` with `k` absent
raises `KeyError`; fallible operations therefore return `Except Unit`.
A stream context is modelled by a handle together with a `broken` flag:
`send` on a broken context raises `grpc.RpcError`, which `publish` catches
per subscriber.  A `threading.Lock` is modelled by its locked state
(`false` = fresh, unlocked); within one sequential call every
acquire/release pair is balanced, so the stored state is `false`
throughout.  Delivery attempts are recorded as an explicit event trace.
-/

namespace PubSub

abbrev Topic := String
abbrev SubId := Nat
abbrev Payload := String

/-- A subscriber's stream context: an opaque handle plus whether a `send`
on it raises `grpc.RpcError`. -/
structure Ctx where
  handle : Nat
  broken : Bool
deriving DecidableEq, Repr

/-- Python dict lookup `d.get(k)` / `d[k]` presence test. -/
def dGet? {α β : Type} [DecidableEq α] : List (α × β) → α → Option β
  | [], _ => none
  | (k, v) :: rest, a => if k = a then some v else dGet? rest a

/-- Python dict assignment `d[k] = v`: overwrite in place, else append. -/
def dSet {α β : Type} [DecidableEq α] : List (α × β) → α → β → List (α × β)
  | [], a, b => [(a, b)]
  | (k, v) :: rest, a, b => if k = a then (a, b) :: rest else (k, v) :: dSet rest a b

/-- Python dict deletion `del d[k]` (the caller must know `k` is present;
`dDel` itself just drops the binding if there is one). -/
def dDel {α β : Type} [DecidableEq α] : List (α × β) → α → List (α × β)
  | [], _ => []
  | (k, v) :: rest, a => if k = a then rest else (k, v) :: dDel rest a

/-- The keys of an association list. -/
def dKeys {α β : Type} (l : List (α × β)) : List α := l.map Prod.fst

/-- Broker registry state: the two parallel dicts of `Broker.__init__`. -/
structure Broker where
  subscribers : List (Topic × List (SubId × Ctx))
  topic_subscribers_mutex : List ((Topic × SubId) × Bool)
deriving DecidableEq, Repr

/-- A freshly constructed broker: both dicts empty. -/
def Broker.init : Broker := ⟨[], []⟩

/-- Registry mutation of `Broker.subscribe` (lines 31–37): ensure the
topic's inner dict exists, overwrite the `(topic, subscriber_id)` entry
with the calling context, and install a fresh unlocked delivery lock. -/
def Broker.subscribe (b : Broker) (topic : Topic) (sid : SubId) (ctx : Ctx) : Broker :=
  let subs0 := if (dGet? b.subscribers topic).isSome then b.subscribers
               else dSet b.subscribers topic []
  let inner := (dGet? subs0 topic).getD []
  { subscribers := dSet subs0 topic (dSet inner sid ctx)
    topic_subscribers_mutex := dSet b.topic_subscribers_mutex (topic, sid) false }

/-- `Broker.unsubscribe` (lines 45–52): not-found reports `success=False`
with no side effects, otherwise deletes the entry and its delivery lock
and reports `success=True`. -/
def Broker.unsubscribe (b : Broker) (topic : Topic) (sid : SubId) : Broker × Bool :=
  match dGet? b.subscribers topic with
  | none => (b, false)
  | some inner =>
      if (dGet? inner sid).isSome then
        ({ subscribers := dSet b.subscribers topic (dDel inner sid)
           topic_subscribers_mutex := dDel b.topic_subscribers_mutex (topic, sid) }, true)
      else (b, false)

/-- One iteration of `Broker.remove_broken_subscribers` (lines 76–78):
`del self.subscribers[key[0]][key[1]]` then
`del self.topic_subscribers_mutex[key]`; each bare `del` raises
`KeyError` when the key is absent. -/
def Broker.remove_broken_one (b : Broker) (k : Topic × SubId) : Except Unit Broker :=
  match dGet? b.subscribers k.1 with
  | none => .error ()
  | some inner =>
      if (dGet? inner k.2).isSome then
        if (dGet? b.topic_subscribers_mutex k).isSome then
          .ok { subscribers := dSet b.subscribers k.1 (dDel inner k.2)
                topic_subscribers_mutex := dDel b.topic_subscribers_mutex k }
        else .error ()
      else .error ()

/-- `Broker.remove_broken_subscribers` (lines 74–78): delete every listed
key from both dicts, in order; a `KeyError` aborts the loop. -/
def Broker.remove_broken_subscribers (b : Broker) :
    List (Topic × SubId) → Except Unit Broker
  | [] => .ok b
  | k :: ks =>
      match b.remove_broken_one k with
      | .ok b' => b'.remove_broken_subscribers ks
      | .error e => .error e

/-- One delivery attempt recorded during fan-out: the message written to
the subscriber's stream, and whether the write succeeded. -/
structure SendEvent where
  topic : Topic
  sid : SubId
  message : Payload
  ok : Bool
deriving DecidableEq, Repr

/-- The fan-out snapshot: `self.subscribers.get(request.topic, {})`, whose
items the publish loop iterates (line 57). -/
def Broker.snapshot (b : Broker) (topic : Topic) : List (SubId × Ctx) :=
  (dGet? b.subscribers topic).getD []

/-- Fan-out loop of `Broker.publish` (lines 57–66): for each snapshot
entry, `self.topic_subscribers_mutex[key].acquire()` (KeyError if the
lock is missing), try the stream write catching `grpc.RpcError` and
collecting the broken key, release in `finally`.  Returns the event trace
and the collected broken keys. -/
def publishLoop (mutex : List ((Topic × SubId) × Bool)) (topic : Topic)
    (message : Payload) : List (SubId × Ctx) →
    Except Unit (List SendEvent × List (Topic × SubId))
  | [] => .ok ([], [])
  | (sid, ctx) :: rest =>
      if (dGet? mutex (topic, sid)).isSome then
        match publishLoop mutex topic message rest with
        | .ok (evs, bks) =>
            .ok (⟨topic, sid, message, !ctx.broken⟩ :: evs,
                 if ctx.broken then (topic, sid) :: bks else bks)
        | .error e => .error e
      else .error ()

/-- `Broker.publish` (lines 54–72): iterate
`self.subscribers.get(topic, {})`, attempt delivery to each subscriber,
evict the broken keys, and return `success = not broker_subscribers`. -/
def Broker.publish (b : Broker) (topic : Topic) (message : Payload) :
    Except Unit (Broker × Bool × List SendEvent) :=
  match publishLoop b.topic_subscribers_mutex topic message (b.snapshot topic) with
  | .error e => .error e
  | .ok (evs, broken) =>
      match b.remove_broken_subscribers broken with
      | .error e => .error e
      | .ok b' => .ok (b', broken.isEmpty, evs)

/-- The `PublishResponse` message returned by the broker's `publish`. -/
structure PublishResponse where
  success : Bool
deriving DecidableEq, Repr

/-- Client-side `Publisher.publish` (lines 128–129): issues the RPC and
falls off the end of the function, discarding the `PublishResponse` the
stub returned and yielding Python's implicit `None`. -/
def Publisher.publish (response : PublishResponse) : Unit :=
  let _ := response
  ()

/-- Whether `(topic, sid)` is registered: `topic in self.subscribers and
sid in self.subscribers[topic]`. -/
def Broker.registered (b : Broker) (t : Topic) (sid : SubId) : Bool :=
  match dGet? b.subscribers t with
  | none => false
  | some inner => (dGet? inner sid).isSome

/-- Whether `(topic, sid)` has a delivery lock. -/
def Broker.hasLock (b : Broker) (t : Topic) (sid : SubId) : Bool :=
  (dGet? b.topic_subscribers_mutex (t, sid)).isSome

/-- The stream context registered for `(topic, sid)`, if any. -/
def Broker.ctxOf (b : Broker) (t : Topic) (sid : SubId) : Option Ctx :=
  (dGet? b.subscribers t).bind (fun inner => dGet? inner sid)

/-- Well-formedness of the registry as Python dicts guarantee it: every
dict has pairwise distinct keys. -/
def Broker.WF (b : Broker) : Prop :=
  (dKeys b.subscribers).Nodup ∧
  (∀ t inner, dGet? b.subscribers t = some inner → (dKeys inner).Nodup) ∧
  (dKeys b.topic_subscribers_mutex).Nodup

/-- The registry invariant: well-formed, and a delivery lock exists iff
the corresponding registry entry exists. -/
def Broker.Inv (b : Broker) : Prop :=
  b.WF ∧ ∀ t sid, b.registered t sid = b.hasLock t sid

/-- One registry operation, as the spec's §4.1 names them. -/
inductive RegOp where
  | register (t : Topic) (sid : SubId) (ctx : Ctx)
  | deregister (t : Topic) (sid : SubId)
  | evict (ks : List (Topic × SubId))
deriving DecidableEq, Repr

/-- Apply one registry operation to a broker state. -/
def Broker.applyOp (b : Broker) : RegOp → Except Unit Broker
  | .register t sid ctx => .ok (b.subscribe t sid ctx)
  | .deregister t sid => .ok (b.unsubscribe t sid).1
  | .evict ks => b.remove_broken_subscribers ks

/-- Run a sequence of registry operations from a broker state. -/
def Broker.runOps (b : Broker) : List RegOp → Except Unit Broker
  | [] => .ok b
  | op :: ops =>
      match b.applyOp op with
      | .ok b' => b'.runOps ops
      | .error e => .error e

section DictLemmas

variable {α β : Type} [DecidableEq α]

theorem dGet?_dSet_self (l : List (α × β)) (a : α) (v : β) :
    dGet? (dSet l a v) a = some v := by
  induction l with
  | nil => simp [dGet?, dSet]
  | cons p rest ih =>
      obtain ⟨k, w⟩ := p
      by_cases h : k = a
      · simp [dSet, dGet?, h]
      · simp [dSet, dGet?, h, ih]

theorem dGet?_dSet_ne (l : List (α × β)) (a k : α) (v : β) (h : k ≠ a) :
    dGet? (dSet l a v) k = dGet? l k := by
  induction l with
  | nil => simp [dGet?, dSet, Ne.symm h]
  | cons p rest ih =>
      obtain ⟨k', w⟩ := p
      by_cases h' : k' = a
      · subst h'
        simp [dSet, dGet?, Ne.symm h]
      · simp only [dSet, if_neg h']
        by_cases h'' : k' = k
        · simp [dGet?, h'']
        · simp [dGet?, h'', ih]

theorem dGet?_dDel_ne (l : List (α × β)) (a k : α) (h : k ≠ a) :
    dGet? (dDel l a) k = dGet? l k := by
  induction l with
  | nil => simp [dDel]
  | cons p rest ih =>
      obtain ⟨k', w⟩ := p
      by_cases h' : k' = a
      · subst h'
        simp [dDel, dGet?, Ne.symm h]
      · simp only [dDel, if_neg h']
        by_cases h'' : k' = k
        · simp [dGet?, h'']
        · simp [dGet?, h'', ih]

theorem dGet?_eq_none_of_not_mem (l : List (α × β)) (a : α) (h : a ∉ dKeys l) :
    dGet? l a = none := by
  induction l with
  | nil => rfl
  | cons p rest ih =>
      obtain ⟨k, w⟩ := p
      simp only [dKeys, List.map_cons, List.mem_cons] at h
      push_neg at h
      simp [dGet?, Ne.symm h.1, ih (by simpa [dKeys] using h.2)]

theorem isSome_dGet?_iff_mem (l : List (α × β)) (a : α) :
    (dGet? l a).isSome = true ↔ a ∈ dKeys l := by
  induction l with
  | nil => simp [dGet?, dKeys]
  | cons p rest ih =>
      obtain ⟨k, w⟩ := p
      by_cases h : k = a
      · subst h
        simp [dGet?, dKeys]
      · simp only [dGet?, if_neg h, dKeys, List.map_cons, List.mem_cons]
        rw [or_iff_right (fun he : a = k => h he.symm)]
        exact ih

theorem dGet?_dDel_self (l : List (α × β)) (a : α) (hnd : (dKeys l).Nodup) :
    dGet? (dDel l a) a = none := by
  induction l with
  | nil => rfl
  | cons p rest ih =>
      obtain ⟨k, w⟩ := p
      simp only [dKeys, List.map_cons, List.nodup_cons] at hnd
      by_cases h : k = a
      · subst h
        simp only [dDel, if_pos rfl]
        exact dGet?_eq_none_of_not_mem rest k hnd.1
      · simp [dDel, h, dGet?, ih hnd.2]

theorem dKeys_dSet_of_mem (l : List (α × β)) (a : α) (v : β) (h : a ∈ dKeys l) :
    dKeys (dSet l a v) = dKeys l := by
  induction l with
  | nil => simp [dKeys] at h
  | cons p rest ih =>
      obtain ⟨k, w⟩ := p
      by_cases h' : k = a
      · subst h'
        simp [dSet, dKeys]
      · simp only [dKeys, List.map_cons, List.mem_cons] at h
        rcases h with h | h
        · exact absurd h.symm h'
        · have hrec := ih (by simpa [dKeys] using h)
          simp only [dSet, if_neg h', dKeys, List.map_cons]
          simpa [dKeys] using hrec

theorem dKeys_dSet_of_not_mem (l : List (α × β)) (a : α) (v : β) (h : a ∉ dKeys l) :
    dKeys (dSet l a v) = dKeys l ++ [a] := by
  induction l with
  | nil => simp [dSet, dKeys]
  | cons p rest ih =>
      obtain ⟨k, w⟩ := p
      simp only [dKeys, List.map_cons, List.mem_cons] at h
      push_neg at h
      have hrec := ih (by simpa [dKeys] using h.2)
      simp only [dSet, if_neg (Ne.symm h.1), dKeys, List.map_cons]
      simpa [dKeys] using hrec

theorem nodup_dKeys_dSet (l : List (α × β)) (a : α) (v : β)
    (h : (dKeys l).Nodup) : (dKeys (dSet l a v)).Nodup := by
  by_cases hm : a ∈ dKeys l
  · rw [dKeys_dSet_of_mem l a v hm]; exact h
  · rw [dKeys_dSet_of_not_mem l a v hm]
    simpa [List.nodup_append] using ⟨h, hm⟩

theorem dKeys_dDel_sublist (l : List (α × β)) (a : α) :
    (dKeys (dDel l a)).Sublist (dKeys l) := by
  induction l with
  | nil => simp [dDel]
  | cons p rest ih =>
      obtain ⟨k, w⟩ := p
      by_cases h : k = a
      · simp only [dDel, if_pos h, dKeys, List.map_cons]
        exact (List.sublist_cons_self _ _)
      · simp only [dDel, if_neg h, dKeys, List.map_cons]
        exact ih.cons₂ k

theorem nodup_dKeys_dDel (l : List (α × β)) (a : α)
    (h : (dKeys l).Nodup) : (dKeys (dDel l a)).Nodup :=
  h.sublist (dKeys_dDel_sublist l a)

end DictLemmas

theorem registered_eq_ctxOf (b : Broker) (t : Topic) (sid : SubId) :
    b.registered t sid = (b.ctxOf t sid).isSome := by
  unfold Broker.registered Broker.ctxOf
  cases dGet? b.subscribers t <;> simp

theorem subscribe_eq_of_none (b : Broker) (t : Topic) (sid : SubId) (ctx : Ctx)
    (h : dGet? b.subscribers t = none) :
    b.subscribe t sid ctx =
      ⟨dSet (dSet b.subscribers t []) t [(sid, ctx)],
       dSet b.topic_subscribers_mutex (t, sid) false⟩ := by
  unfold Broker.subscribe
  simp [h, dGet?_dSet_self, dSet]

theorem subscribe_eq_of_some (b : Broker) (t : Topic) (sid : SubId) (ctx : Ctx)
    (inner : List (SubId × Ctx)) (h : dGet? b.subscribers t = some inner) :
    b.subscribe t sid ctx =
      ⟨dSet b.subscribers t (dSet inner sid ctx),
       dSet b.topic_subscribers_mutex (t, sid) false⟩ := by
  unfold Broker.subscribe
  simp [h]

theorem subscribe_ctxOf_self (b : Broker) (t : Topic) (sid : SubId) (ctx : Ctx) :
    (b.subscribe t sid ctx).ctxOf t sid = some ctx := by
  cases h : dGet? b.subscribers t with
  | none =>
      rw [subscribe_eq_of_none b t sid ctx h]
      simp [Broker.ctxOf, dGet?_dSet_self, dGet?]
  | some inner =>
      rw [subscribe_eq_of_some b t sid ctx inner h]
      simp [Broker.ctxOf, dGet?_dSet_self]

theorem subscribe_ctxOf_ne (b : Broker) (t : Topic) (sid : SubId) (ctx : Ctx)
    (t' : Topic) (sid' : SubId) (h2 : ¬(t' = t ∧ sid' = sid)) :
    (b.subscribe t sid ctx).ctxOf t' sid' = b.ctxOf t' sid' := by
  by_cases ht : t' = t
  · subst ht
    have hs : sid' ≠ sid := fun he => h2 ⟨rfl, he⟩
    cases h : dGet? b.subscribers t' with
    | none =>
        rw [subscribe_eq_of_none b t' sid ctx h]
        simp [Broker.ctxOf, dGet?_dSet_self, h, dGet?_dSet_ne _ _ _ _ hs, dGet?,
          Ne.symm hs]
    | some inner =>
        rw [subscribe_eq_of_some b t' sid ctx inner h]
        simp [Broker.ctxOf, dGet?_dSet_self, h, dGet?_dSet_ne _ _ _ _ hs]
  · cases h : dGet? b.subscribers t with
    | none =>
        rw [subscribe_eq_of_none b t sid ctx h]
        simp [Broker.ctxOf, dGet?_dSet_ne _ _ _ _ ht]
    | some inner =>
        rw [subscribe_eq_of_some b t sid ctx inner h]
        simp [Broker.ctxOf, dGet?_dSet_ne _ _ _ _ ht]

theorem subscribe_lock_self (b : Broker) (t : Topic) (sid : SubId) (ctx : Ctx) :
    dGet? (b.subscribe t sid ctx).topic_subscribers_mutex (t, sid) = some false := by
  cases h : dGet? b.subscribers t with
  | none => rw [subscribe_eq_of_none b t sid ctx h]; exact dGet?_dSet_self _ _ _
  | some inner => rw [subscribe_eq_of_some b t sid ctx inner h]; exact dGet?_dSet_self _ _ _

theorem subscribe_lock_ne (b : Broker) (t : Topic) (sid : SubId) (ctx : Ctx)
    (t' : Topic) (sid' : SubId) (h2 : (t', sid') ≠ (t, sid)) :
    dGet? (b.subscribe t sid ctx).topic_subscribers_mutex (t', sid')
      = dGet? b.topic_subscribers_mutex (t', sid') := by
  cases h : dGet? b.subscribers t with
  | none => rw [subscribe_eq_of_none b t sid ctx h]; exact dGet?_dSet_ne _ _ _ _ h2
  | some inner => rw [subscribe_eq_of_some b t sid ctx inner h]; exact dGet?_dSet_ne _ _ _ _ h2

theorem subscribe_WF (b : Broker) (t : Topic) (sid : SubId) (ctx : Ctx)
    (hWF : b.WF) : (b.subscribe t sid ctx).WF := by
  obtain ⟨h1, h2, h3⟩ := hWF
  cases h : dGet? b.subscribers t with
  | none =>
      rw [subscribe_eq_of_none b t sid ctx h]
      refine ⟨?_, ?_, nodup_dKeys_dSet _ _ _ h3⟩
      · exact nodup_dKeys_dSet _ _ _ (nodup_dKeys_dSet _ _ _ h1)
      · intro t' inner' hget
        by_cases ht : t' = t
        · subst ht
          rw [dGet?_dSet_self] at hget
          cases hget
          simp [dKeys]
        · rw [dGet?_dSet_ne _ _ _ _ ht, dGet?_dSet_ne _ _ _ _ ht] at hget
          exact h2 t' inner' hget
  | some inner =>
      rw [subscribe_eq_of_some b t sid ctx inner h]
      refine ⟨nodup_dKeys_dSet _ _ _ h1, ?_, nodup_dKeys_dSet _ _ _ h3⟩
      intro t' inner' hget
      by_cases ht : t' = t
      · subst ht
        rw [dGet?_dSet_self] at hget
        cases hget
        exact nodup_dKeys_dSet _ _ _ (h2 t' inner h)
      · rw [dGet?_dSet_ne _ _ _ _ ht] at hget
        exact h2 t' inner' hget

theorem subscribe_registered_self (b : Broker) (t : Topic) (sid : SubId) (ctx : Ctx) :
    (b.subscribe t sid ctx).registered t sid = true := by
  rw [registered_eq_ctxOf, subscribe_ctxOf_self]
  rfl

theorem subscribe_Inv (b : Broker) (t : Topic) (sid : SubId) (ctx : Ctx)
    (hInv : b.Inv) : (b.subscribe t sid ctx).Inv := by
  refine ⟨subscribe_WF b t sid ctx hInv.1, ?_⟩
  intro t' sid'
  by_cases h2 : t' = t ∧ sid' = sid
  · obtain ⟨rfl, rfl⟩ := h2
    rw [subscribe_registered_self]
    unfold Broker.hasLock
    rw [subscribe_lock_self]
    rfl
  · have hne : (t', sid') ≠ (t, sid) := by
      intro he
      exact h2 ⟨congrArg Prod.fst he, congrArg Prod.snd he⟩
    rw [registered_eq_ctxOf, subscribe_ctxOf_ne b t sid ctx t' sid' h2,
      ← registered_eq_ctxOf]
    unfold Broker.hasLock
    rw [subscribe_lock_ne b t sid ctx t' sid' hne]
    exact hInv.2 t' sid'

theorem unsubscribe_not_found (b : Broker) (t : Topic) (sid : SubId)
    (h : b.registered t sid = false) : b.unsubscribe t sid = (b, false) := by
  unfold Broker.registered at h
  unfold Broker.unsubscribe
  cases hg : dGet? b.subscribers t with
  | none => rfl
  | some inner =>
      rw [hg] at h
      simp only [] at h
      simp [h]

theorem unsubscribe_eq_of_found (b : Broker) (t : Topic) (sid : SubId)
    (inner : List (SubId × Ctx)) (hg : dGet? b.subscribers t = some inner)
    (hs : (dGet? inner sid).isSome = true) :
    b.unsubscribe t sid =
      (⟨dSet b.subscribers t (dDel inner sid),
        dDel b.topic_subscribers_mutex (t, sid)⟩, true) := by
  unfold Broker.unsubscribe
  rw [hg]
  simp [hs]

theorem unsubscribe_snd_of_found (b : Broker) (t : Topic) (sid : SubId)
    (h : b.registered t sid = true) : (b.unsubscribe t sid).2 = true := by
  unfold Broker.registered at h
  cases hg : dGet? b.subscribers t with
  | none => rw [hg] at h; cases h
  | some inner =>
      rw [hg] at h
      rw [unsubscribe_eq_of_found b t sid inner hg h]

theorem unsubscribe_ctxOf_self (b : Broker) (t : Topic) (sid : SubId)
    (hWF : b.WF) (h : b.registered t sid = true) :
    (b.unsubscribe t sid).1.ctxOf t sid = none := by
  unfold Broker.registered at h
  cases hg : dGet? b.subscribers t with
  | none => rw [hg] at h; cases h
  | some inner =>
      rw [hg] at h
      rw [unsubscribe_eq_of_found b t sid inner hg h]
      simp only [Broker.ctxOf, dGet?_dSet_self, Option.bind]
      simp [dGet?_dDel_self inner sid (hWF.2.1 t inner hg)]

theorem unsubscribe_ctxOf_ne (b : Broker) (t : Topic) (sid : SubId)
    (t' : Topic) (sid' : SubId) (h2 : ¬(t' = t ∧ sid' = sid)) :
    (b.unsubscribe t sid).1.ctxOf t' sid' = b.ctxOf t' sid' := by
  cases hg : dGet? b.subscribers t with
  | none =>
      unfold Broker.unsubscribe
      rw [hg]
  | some inner =>
      cases hs : (dGet? inner sid).isSome with
      | false =>
          unfold Broker.unsubscribe
          rw [hg]
          simp [hs]
      | true =>
          rw [unsubscribe_eq_of_found b t sid inner hg hs]
          by_cases ht : t' = t
          · subst ht
            have hsne : sid' ≠ sid := fun he => h2 ⟨rfl, he⟩
            simp [Broker.ctxOf, dGet?_dSet_self, hg, dGet?_dDel_ne _ _ _ hsne]
          · simp [Broker.ctxOf, dGet?_dSet_ne _ _ _ _ ht]

theorem unsubscribe_lock_self (b : Broker) (t : Topic) (sid : SubId)
    (hWF : b.WF) (h : b.registered t sid = true) :
    (b.unsubscribe t sid).1.hasLock t sid = false := by
  unfold Broker.registered at h
  cases hg : dGet? b.subscribers t with
  | none => rw [hg] at h; cases h
  | some inner =>
      rw [hg] at h
      rw [unsubscribe_eq_of_found b t sid inner hg h]
      unfold Broker.hasLock
      simp [dGet?_dDel_self _ _ hWF.2.2]

theorem unsubscribe_lock_ne (b : Broker) (t : Topic) (sid : SubId)
    (t' : Topic) (sid' : SubId) (h2 : (t', sid') ≠ (t, sid)) :
    (b.unsubscribe t sid).1.hasLock t' sid' = b.hasLock t' sid' := by
  cases hg : dGet? b.subscribers t with
  | none =>
      unfold Broker.unsubscribe
      rw [hg]
  | some inner =>
      cases hs : (dGet? inner sid).isSome with
      | false =>
          unfold Broker.unsubscribe
          rw [hg]
          simp [hs]
      | true =>
          rw [unsubscribe_eq_of_found b t sid inner hg hs]
          unfold Broker.hasLock
          simp [dGet?_dDel_ne _ _ _ h2]

theorem unsubscribe_topics (b : Broker) (t : Topic) (sid : SubId) (t' : Topic) :
    (dGet? (b.unsubscribe t sid).1.subscribers t').isSome
      = (dGet? b.subscribers t').isSome := by
  cases hg : dGet? b.subscribers t with
  | none =>
      unfold Broker.unsubscribe
      rw [hg]
  | some inner =>
      cases hs : (dGet? inner sid).isSome with
      | false =>
          unfold Broker.unsubscribe
          rw [hg]
          simp [hs]
      | true =>
          rw [unsubscribe_eq_of_found b t sid inner hg hs]
          by_cases ht : t' = t
          · subst ht
            simp [dGet?_dSet_self, hg]
          · simp [dGet?_dSet_ne _ _ _ _ ht]

theorem unsubscribe_WF (b : Broker) (t : Topic) (sid : SubId)
    (hWF : b.WF) : (b.unsubscribe t sid).1.WF := by
  cases hg : dGet? b.subscribers t with
  | none =>
      unfold Broker.unsubscribe
      rw [hg]
      exact hWF
  | some inner =>
      cases hs : (dGet? inner sid).isSome with
      | false =>
          unfold Broker.unsubscribe
          rw [hg]
          simp only [hs, Bool.false_eq_true, if_false]
          exact hWF
      | true =>
          rw [unsubscribe_eq_of_found b t sid inner hg hs]
          obtain ⟨h1, h2, h3⟩ := hWF
          refine ⟨?_, ?_, nodup_dKeys_dDel _ _ h3⟩
          · rwa [dKeys_dSet_of_mem]
            exact (isSome_dGet?_iff_mem _ _).1 (by simp [hg])
          · intro t' inner' hget
            by_cases ht : t' = t
            · subst ht
              rw [dGet?_dSet_self] at hget
              cases hget
              exact nodup_dKeys_dDel _ _ (h2 t' inner hg)
            · rw [dGet?_dSet_ne _ _ _ _ ht] at hget
              exact h2 t' inner' hget

theorem unsubscribe_Inv (b : Broker) (t : Topic) (sid : SubId)
    (hInv : b.Inv) : (b.unsubscribe t sid).1.Inv := by
  cases hr : b.registered t sid with
  | false =>
      rw [unsubscribe_not_found b t sid hr]
      exact hInv
  | true =>
      refine ⟨unsubscribe_WF b t sid hInv.1, ?_⟩
      intro t' sid'
      by_cases h2 : t' = t ∧ sid' = sid
      · obtain ⟨rfl, rfl⟩ := h2
        rw [registered_eq_ctxOf, unsubscribe_ctxOf_self b t' sid' hInv.1 hr,
          unsubscribe_lock_self b t' sid' hInv.1 hr]
        rfl
      · have hne : (t', sid') ≠ (t, sid) := by
          intro he
          exact h2 ⟨congrArg Prod.fst he, congrArg Prod.snd he⟩
        rw [registered_eq_ctxOf, unsubscribe_ctxOf_ne b t sid t' sid' h2,
          ← registered_eq_ctxOf, unsubscribe_lock_ne b t sid t' sid' hne]
        exact hInv.2 t' sid'

theorem remove_broken_one_eq (b : Broker) (k : Topic × SubId)
    (hr : b.registered k.1 k.2 = true) (hl : b.hasLock k.1 k.2 = true) :
    b.remove_broken_one k = .ok (b.unsubscribe k.1 k.2).1 := by
  unfold Broker.registered at hr
  unfold Broker.hasLock at hl
  cases hg : dGet? b.subscribers k.1 with
  | none => rw [hg] at hr; cases hr
  | some inner =>
      rw [hg] at hr
      simp only [] at hr
      rw [unsubscribe_eq_of_found b k.1 k.2 inner hg hr]
      unfold Broker.remove_broken_one
      rw [hg]
      simp [hr, hl]

theorem remove_broken_one_error (b : Broker) (k : Topic × SubId)
    (hr : b.registered k.1 k.2 = false) :
    b.remove_broken_one k = .error () := by
  unfold Broker.registered at hr
  unfold Broker.remove_broken_one
  cases hg : dGet? b.subscribers k.1 with
  | none => rfl
  | some inner =>
      rw [hg] at hr
      simp only [] at hr
      simp [hr]

theorem remove_broken_one_ok_cases (b b' : Broker) (k : Topic × SubId)
    (h : b.remove_broken_one k = .ok b') : b' = (b.unsubscribe k.1 k.2).1 := by
  unfold Broker.remove_broken_one at h
  cases hg : dGet? b.subscribers k.1 with
  | none => rw [hg] at h; cases h
  | some inner =>
      rw [hg] at h
      simp only [] at h
      by_cases hs : (dGet? inner k.2).isSome = true
      · rw [if_pos hs] at h
        by_cases hm : (dGet? b.topic_subscribers_mutex k).isSome = true
        · rw [if_pos hm] at h
          cases h
          rw [unsubscribe_eq_of_found b k.1 k.2 inner hg hs]
        · rw [if_neg hm] at h
          cases h
      · rw [if_neg hs] at h
        cases h

theorem remove_broken_topics (ks : List (Topic × SubId)) :
    ∀ b b' : Broker, b.remove_broken_subscribers ks = .ok b' →
      ∀ t', (dGet? b'.subscribers t').isSome = (dGet? b.subscribers t').isSome := by
  induction ks with
  | nil =>
      intro b b' h t'
      cases h
      rfl
  | cons k ks ih =>
      intro b b' h t'
      unfold Broker.remove_broken_subscribers at h
      cases h1 : b.remove_broken_one k with
      | error e => rw [h1] at h; cases h
      | ok b1 =>
          rw [h1] at h
          rw [ih b1 b' h t', remove_broken_one_ok_cases b b1 k h1,
            unsubscribe_topics]

theorem remove_broken_ok (ks : List (Topic × SubId)) :
    ∀ b : Broker, b.Inv → ks.Nodup →
      (∀ k ∈ ks, b.registered k.1 k.2 = true) →
      ∃ b', b.remove_broken_subscribers ks = .ok b' ∧ b'.Inv ∧
        (∀ t sid, b'.registered t sid
            = (b.registered t sid && !decide ((t, sid) ∈ ks))) ∧
        (∀ t sid, b'.hasLock t sid
            = (b.hasLock t sid && !decide ((t, sid) ∈ ks))) := by
  induction ks with
  | nil =>
      intro b hInv _ _
      exact ⟨b, rfl, hInv, fun t sid => by simp, fun t sid => by simp⟩
  | cons k ks ih =>
      intro b hInv hnd hreg
      have hr : b.registered k.1 k.2 = true := hreg k (List.mem_cons_self _ _)
      have hl : b.hasLock k.1 k.2 = true := by rw [← hInv.2 k.1 k.2]; exact hr
      have h1 := remove_broken_one_eq b k hr hl
      have hInv1 : (b.unsubscribe k.1 k.2).1.Inv := unsubscribe_Inv _ _ _ hInv
      have hreg1 : ∀ k' ∈ ks, (b.unsubscribe k.1 k.2).1.registered k'.1 k'.2 = true := by
        intro k' hk'
        have hne : k' ≠ k := by
          intro he
          subst he
          exact (List.nodup_cons.1 hnd).1 hk'
        have hne2 : ¬(k'.1 = k.1 ∧ k'.2 = k.2) := by
          intro ⟨e1, e2⟩
          exact hne (Prod.ext e1 e2)
        rw [registered_eq_ctxOf, unsubscribe_ctxOf_ne b k.1 k.2 k'.1 k'.2 hne2,
          ← registered_eq_ctxOf]
        exact hreg k' (List.mem_cons_of_mem _ hk')
      obtain ⟨b', hok, hInv', hreg', hlock'⟩ :=
        ih (b.unsubscribe k.1 k.2).1 hInv1 (List.nodup_cons.1 hnd).2 hreg1
      refine ⟨b', ?_, hInv', ?_, ?_⟩
      · unfold Broker.remove_broken_subscribers
        rw [h1]
        exact hok
      · intro t sid
        rw [hreg' t sid]
        by_cases he : (t, sid) = k
        · have e1 : t = k.1 := congrArg Prod.fst he
          have e2 : sid = k.2 := congrArg Prod.snd he
          subst e1; subst e2
          rw [registered_eq_ctxOf _ k.1 k.2,
            unsubscribe_ctxOf_self b k.1 k.2 hInv.1 hr]
          simp [he]
        · have hne2 : ¬(t = k.1 ∧ sid = k.2) := by
            intro ⟨e1, e2⟩
            exact he (Prod.ext e1 e2)
          rw [registered_eq_ctxOf, unsubscribe_ctxOf_ne b k.1 k.2 t sid hne2,
            ← registered_eq_ctxOf]
          simp [he]
      · intro t sid
        rw [hlock' t sid]
        by_cases he : (t, sid) = k
        · have e1 : t = k.1 := congrArg Prod.fst he
          have e2 : sid = k.2 := congrArg Prod.snd he
          subst e1; subst e2
          rw [unsubscribe_lock_self b k.1 k.2 hInv.1 hr]
          simp [he]
        · rw [unsubscribe_lock_ne b k.1 k.2 t sid he]
          simp [he]

/-- The event trace the fan-out loop produces for a snapshot: one delivery
attempt per entry, succeeding unless the context is broken. -/
def sendEvents (t : Topic) (m : Payload) (inner : List (SubId × Ctx)) :
    List SendEvent :=
  inner.map (fun p => ⟨t, p.1, m, !p.2.broken⟩)

/-- The `broker_subscribers` list the fan-out loop collects: the keys of
the snapshot entries whose stream write raised. -/
def brokenKeys (t : Topic) (inner : List (SubId × Ctx)) :
    List (Topic × SubId) :=
  (inner.filter (fun p => p.2.broken)).map (fun p => (t, p.1))

theorem publishLoop_ok (mutex : List ((Topic × SubId) × Bool)) (t : Topic)
    (m : Payload) (inner : List (SubId × Ctx))
    (h : ∀ p ∈ inner, (dGet? mutex (t, p.1)).isSome = true) :
    publishLoop mutex t m inner = .ok (sendEvents t m inner, brokenKeys t inner) := by
  induction inner with
  | nil => rfl
  | cons p rest ih =>
      obtain ⟨sid, ctx⟩ := p
      have h1 := h (sid, ctx) (List.mem_cons_self _ _)
      have h2 := ih (fun q hq => h q (List.mem_cons_of_mem _ hq))
      simp only [publishLoop, h1, if_true, h2]
      cases hb : ctx.broken <;> simp [sendEvents, brokenKeys, hb]

theorem publishLoop_shape (mutex : List ((Topic × SubId) × Bool)) (t : Topic)
    (m : Payload) : ∀ (inner : List (SubId × Ctx)) r,
    publishLoop mutex t m inner = .ok r →
    r = (sendEvents t m inner, brokenKeys t inner) := by
  intro inner
  induction inner with
  | nil =>
      intro r h
      cases h
      rfl
  | cons p rest ih =>
      intro r h
      obtain ⟨sid, ctx⟩ := p
      unfold publishLoop at h
      by_cases h1 : (dGet? mutex (t, sid)).isSome = true
      · rw [if_pos h1] at h
        cases h2 : publishLoop mutex t m rest with
        | error e => rw [h2] at h; cases h
        | ok r2 =>
            rw [h2] at h
            obtain ⟨evs, bks⟩ := r2
            cases h
            have := ih (evs, bks) h2
            cases this
            cases hb : ctx.broken <;> simp [sendEvents, brokenKeys, hb]
      · rw [if_neg h1] at h
        cases h

theorem mem_brokenKeys (t : Topic) (inner : List (SubId × Ctx))
    (k : Topic × SubId) :
    k ∈ brokenKeys t inner ↔ ∃ p ∈ inner, p.2.broken = true ∧ k = (t, p.1) := by
  simp only [brokenKeys, List.mem_map, List.mem_filter]
  constructor
  · rintro ⟨p, ⟨hp, hb⟩, rfl⟩
    exact ⟨p, hp, hb, rfl⟩
  · rintro ⟨p, hp, hb, rfl⟩
    exact ⟨p, ⟨hp, hb⟩, rfl⟩

theorem brokenKeys_nodup (t : Topic) (inner : List (SubId × Ctx))
    (hnd : (dKeys inner).Nodup) : (brokenKeys t inner).Nodup := by
  have hsub : (List.map Prod.fst (inner.filter (fun p => p.2.broken))).Sublist
      (List.map Prod.fst inner) := (List.filter_sublist _).map _
  have h1 : (List.map Prod.fst (inner.filter (fun p => p.2.broken))).Nodup :=
    hnd.sublist hsub
  have h2 : brokenKeys t inner
      = (List.map Prod.fst (inner.filter (fun p => p.2.broken))).map
          (fun s => (t, s)) := by
    simp [brokenKeys, List.map_map]
  rw [h2]
  exact h1.map (fun a b h => congrArg Prod.snd h)

theorem snapshot_registered (b : Broker) (t : Topic) (p : SubId × Ctx)
    (hp : p ∈ b.snapshot t) : b.registered t p.1 = true := by
  unfold Broker.snapshot at hp
  cases hg : dGet? b.subscribers t with
  | none =>
      rw [hg] at hp
      cases hp
  | some inner =>
      rw [hg] at hp
      unfold Broker.registered
      rw [hg]
      exact (isSome_dGet?_iff_mem _ _).2 (List.mem_map_of_mem Prod.fst hp)

theorem snapshot_keys_nodup (b : Broker) (t : Topic) (hWF : b.WF) :
    (dKeys (b.snapshot t)).Nodup := by
  unfold Broker.snapshot
  cases hg : dGet? b.subscribers t with
  | none => simp [dKeys]
  | some inner =>
      simp only [Option.getD_some]
      exact hWF.2.1 t inner hg

theorem snapshot_nil_of_unregistered (b : Broker) (t : Topic)
    (h : ∀ sid, b.registered t sid = false) : b.snapshot t = [] := by
  unfold Broker.snapshot
  cases hg : dGet? b.subscribers t with
  | none => rfl
  | some inner =>
      cases inner with
      | nil => rfl
      | cons p rest =>
          have hc := h p.1
          unfold Broker.registered at hc
          rw [hg] at hc
          simp only [] at hc
          obtain ⟨s, c⟩ := p
          simp [dGet?] at hc

theorem publish_empty (b : Broker) (t : Topic) (m : Payload)
    (h : b.snapshot t = []) : b.publish t m = .ok (b, true, []) := by
  unfold Broker.publish
  rw [h]
  rfl

theorem publish_spec (b : Broker) (t : Topic) (m : Payload) (hInv : b.Inv) :
    ∃ b', b.publish t m
        = .ok (b', (brokenKeys t (b.snapshot t)).isEmpty,
               sendEvents t m (b.snapshot t)) ∧
      b'.Inv ∧
      (∀ t' sid', b'.registered t' sid'
          = (b.registered t' sid'
             && !decide ((t', sid') ∈ brokenKeys t (b.snapshot t)))) ∧
      (∀ t', (dGet? b'.subscribers t').isSome = (dGet? b.subscribers t').isSome) := by
  have hmut : ∀ p ∈ b.snapshot t,
      (dGet? b.topic_subscribers_mutex (t, p.1)).isSome = true := by
    intro p hp
    have hr := snapshot_registered b t p hp
    have h2 := hInv.2 t p.1
    rw [hr] at h2
    exact h2.symm
  have hloop := publishLoop_ok b.topic_subscribers_mutex t m (b.snapshot t) hmut
  have hregk : ∀ k ∈ brokenKeys t (b.snapshot t), b.registered k.1 k.2 = true := by
    intro k hk
    obtain ⟨p, hp, _, rfl⟩ := (mem_brokenKeys t (b.snapshot t) k).1 hk
    exact snapshot_registered b t p hp
  have hnodk : (brokenKeys t (b.snapshot t)).Nodup :=
    brokenKeys_nodup t (b.snapshot t) (snapshot_keys_nodup b t hInv.1)
  obtain ⟨b', hok, hInv', hreg', _⟩ :=
    remove_broken_ok (brokenKeys t (b.snapshot t)) b hInv hnodk hregk
  refine ⟨b', ?_, hInv', hreg', ?_⟩
  · unfold Broker.publish
    rw [hloop]
    simp only [hok]
  · exact fun t' => remove_broken_topics _ b b' hok t'

theorem publish_ok_events (b b' : Broker) (t : Topic) (m : Payload)
    (succ : Bool) (evs : List SendEvent)
    (hp : b.publish t m = .ok (b', succ, evs)) :
    evs = sendEvents t m (b.snapshot t) := by
  unfold Broker.publish at hp
  cases hl : publishLoop b.topic_subscribers_mutex t m (b.snapshot t) with
  | error e => rw [hl] at hp; cases hp
  | ok r =>
      rw [hl] at hp
      have hr := publishLoop_shape b.topic_subscribers_mutex t m (b.snapshot t) r hl
      subst hr
      simp only [] at hp
      cases hrm : b.remove_broken_subscribers (brokenKeys t (b.snapshot t)) with
      | error e => rw [hrm] at hp; cases hp
      | ok b2 =>
          rw [hrm] at hp
          simp only [] at hp
          have h3 := Except.ok.inj hp
          exact (congrArg (fun x => x.2.2) h3).symm

theorem brokenKeys_isEmpty_iff (t : Topic) (m : Payload)
    (inner : List (SubId × Ctx)) :
    (brokenKeys t inner).isEmpty = false
      ↔ ∃ ev ∈ sendEvents t m inner, ev.ok = false := by
  constructor
  · intro h
    have hne : brokenKeys t inner ≠ [] := by
      intro he
      rw [he] at h
      cases h
    obtain ⟨k, hk⟩ := List.exists_mem_of_ne_nil _ hne
    obtain ⟨p, hp, hb, rfl⟩ := (mem_brokenKeys _ _ _).1 hk
    refine ⟨⟨t, p.1, m, !p.2.broken⟩, List.mem_map_of_mem _ hp, ?_⟩
    simp [hb]
  · rintro ⟨ev, hev, hok⟩
    obtain ⟨p, hp, rfl⟩ := List.mem_map.1 hev
    have hb : p.2.broken = true := by
      simpa using hok
    have hk : (t, p.1) ∈ brokenKeys t inner :=
      (mem_brokenKeys _ _ _).2 ⟨p, hp, hb, rfl⟩
    cases hbk : brokenKeys t inner with
    | nil => rw [hbk] at hk; cases hk
    | cons a l => rfl

theorem init_Inv : Broker.init.Inv :=
  ⟨⟨List.nodup_nil, fun _ _ h => Option.noConfusion h, List.nodup_nil⟩,
   fun _ _ => rfl⟩

theorem remove_broken_subscribers_Inv (ks : List (Topic × SubId)) :
    ∀ b b' : Broker, b.Inv → b.remove_broken_subscribers ks = .ok b' → b'.Inv := by
  induction ks with
  | nil =>
      intro b b' hInv h
      cases h
      exact hInv
  | cons k ks ih =>
      intro b b' hInv h
      unfold Broker.remove_broken_subscribers at h
      cases h1 : b.remove_broken_one k with
      | error e => rw [h1] at h; cases h
      | ok b1 =>
          rw [h1] at h
          have hb1 := remove_broken_one_ok_cases b b1 k h1
          subst hb1
          exact ih _ b' (unsubscribe_Inv _ _ _ hInv) h

theorem runOps_Inv (ops : List RegOp) :
    ∀ b b' : Broker, b.Inv → b.runOps ops = .ok b' → b'.Inv := by
  induction ops with
  | nil =>
      intro b b' h1 h
      cases h
      exact h1
  | cons op ops ih =>
      intro b b' h1 h
      unfold Broker.runOps at h
      cases op with
      | register t sid ctx =>
          simp only [Broker.applyOp] at h
          exact ih _ b' (subscribe_Inv _ _ _ _ h1) h
      | deregister t sid =>
          simp only [Broker.applyOp] at h
          exact ih _ b' (unsubscribe_Inv _ _ _ h1) h
      | evict ks =>
          simp only [Broker.applyOp] at h
          cases h2 : b.remove_broken_subscribers ks with
          | error e => rw [h2] at h; cases h
          | ok b1 =>
              rw [h2] at h
              exact ih _ b' (remove_broken_subscribers_Inv ks b b1 h1 h2) h

/-- Claim C1: during the fan-out of `publish`, a failing stream write is
caught per subscriber: every snapshot entry still gets a delivery
attempt, `publish` returns `success=False`, and the broken subscriber's
entry is absent from the registry after the call returns. -/
theorem C1_publish_failure_isolation (b : Broker) (t : Topic) (m : Payload)
    (sid : SubId) (ctx : Ctx) (hInv : b.Inv)
    (hmem : (sid, ctx) ∈ b.snapshot t) (hbroken : ctx.broken = true) :
    ∃ b' evs, b.publish t m = .ok (b', false, evs) ∧
      (∀ p ∈ b.snapshot t, (⟨t, p.1, m, !p.2.broken⟩ : SendEvent) ∈ evs) ∧
      b'.registered t sid = false := by
  obtain ⟨b', hok, _, hreg', _⟩ := publish_spec b t m hInv
  have hkmem : (t, sid) ∈ brokenKeys t (b.snapshot t) :=
    (mem_brokenKeys _ _ _).2 ⟨(sid, ctx), hmem, hbroken, rfl⟩
  have hne : (brokenKeys t (b.snapshot t)).isEmpty = false := by
    cases hbk : brokenKeys t (b.snapshot t) with
    | nil => rw [hbk] at hkmem; cases hkmem
    | cons a l => rfl
  refine ⟨b', sendEvents t m (b.snapshot t), ?_, ?_, ?_⟩
  · rw [hok, hne]
  · intro p hp
    exact List.mem_map_of_mem _ hp
  · rw [hreg' t sid]
    simp [hkmem]

/-- Claim C2, counterexample: `remove_broken_subscribers` does not
tolerate a key whose entry is already absent — the bare `del` raises
`KeyError` (modelled as `.error ()`), so eviction of an absent key is not
silent. -/
theorem C2_counterexample :
    Broker.init.remove_broken_subscribers [("t", 1)] = .error () ∧
      ¬∃ b', Broker.init.remove_broken_subscribers [("t", 1)] = .ok b' := by
  refine ⟨rfl, ?_⟩
  rintro ⟨b', hb⟩
  rw [show Broker.init.remove_broken_subscribers [("t", 1)] = .error ()
    from rfl] at hb
  cases hb

/-- Claim C2, amended: when every listed key is still present (and the
keys are distinct), `remove_broken_subscribers` deletes each listed entry
and its delivery lock and nothing else; a key whose entry is absent
instead raises `KeyError` (see the counterexample). -/
theorem C2_remove_broken_deletes_present (b : Broker)
    (ks : List (Topic × SubId)) (hInv : b.Inv) (hnd : ks.Nodup)
    (hreg : ∀ k ∈ ks, b.registered k.1 k.2 = true) :
    ∃ b', b.remove_broken_subscribers ks = .ok b' ∧
      (∀ t sid, b'.registered t sid
          = (b.registered t sid && !decide ((t, sid) ∈ ks))) ∧
      (∀ t sid, b'.hasLock t sid
          = (b.hasLock t sid && !decide ((t, sid) ∈ ks))) := by
  obtain ⟨b', h1, _, h2, h3⟩ := remove_broken_ok ks b hInv hnd hreg
  exact ⟨b', h1, h2, h3⟩

/-- Claim C3: `publish` reports `success=False` exactly when at least one
delivery attempt of that fan-out pass failed; with no failed attempt
(including an empty snapshot) it reports `success=True`. -/
theorem C3_publish_success_iff (b : Broker) (t : Topic) (m : Payload)
    (hInv : b.Inv) :
    ∃ b' succ evs, b.publish t m = .ok (b', succ, evs) ∧
      (succ = false ↔ ∃ ev ∈ evs, ev.ok = false) := by
  obtain ⟨b', hok, _, _, _⟩ := publish_spec b t m hInv
  refine ⟨b', (brokenKeys t (b.snapshot t)).isEmpty,
    sendEvents t m (b.snapshot t), hok, ?_⟩
  constructor
  · intro hf
    exact (brokenKeys_isEmpty_iff t m (b.snapshot t)).1 hf
  · intro hex
    exact (brokenKeys_isEmpty_iff t m (b.snapshot t)).2 hex

/-- Claim C4: `unsubscribe` of an unregistered pair returns
`success=False` leaving the whole state unchanged; of a registered pair
it deletes exactly that entry and its delivery lock and returns
`success=True`, so a second `unsubscribe` of the same pair returns
`success=False`. -/
theorem C4_unsubscribe_spec (b : Broker) (t : Topic) (sid : SubId)
    (hWF : b.WF) :
    (b.registered t sid = false → b.unsubscribe t sid = (b, false)) ∧
    (b.registered t sid = true →
      (b.unsubscribe t sid).2 = true ∧
      (b.unsubscribe t sid).1.registered t sid = false ∧
      (b.unsubscribe t sid).1.hasLock t sid = false ∧
      (∀ t' sid', ¬(t' = t ∧ sid' = sid) →
        (b.unsubscribe t sid).1.ctxOf t' sid' = b.ctxOf t' sid' ∧
        (b.unsubscribe t sid).1.hasLock t' sid' = b.hasLock t' sid') ∧
      ((b.unsubscribe t sid).1.unsubscribe t sid).2 = false) := by
  refine ⟨unsubscribe_not_found b t sid, ?_⟩
  intro hr
  have hreg' : (b.unsubscribe t sid).1.registered t sid = false := by
    rw [registered_eq_ctxOf, unsubscribe_ctxOf_self b t sid hWF hr]
    rfl
  refine ⟨unsubscribe_snd_of_found b t sid hr, hreg',
    unsubscribe_lock_self b t sid hWF hr, ?_, ?_⟩
  · intro t' sid' h2
    have hne : (t', sid') ≠ (t, sid) := by
      intro he
      exact h2 ⟨congrArg Prod.fst he, congrArg Prod.snd he⟩
    exact ⟨unsubscribe_ctxOf_ne b t sid t' sid' h2,
      unsubscribe_lock_ne b t sid t' sid' hne⟩
  · rw [unsubscribe_not_found _ t sid hreg']

/-- Claim C5: after any sequence of register, deregister and eviction
operations run from the fresh broker, the pairs holding a delivery lock
are exactly the registered pairs. -/
theorem C5_registry_lock_consistency (ops : List RegOp) (b' : Broker)
    (h : Broker.init.runOps ops = .ok b') :
    ∀ t sid, b'.registered t sid = b'.hasLock t sid :=
  (runOps_Inv ops Broker.init b' init_Inv h).2

/-- Claim C6: publishing to a topic with no registered subscriber
(including one the broker has never seen) returns `success=True`, records
no delivery attempt, and leaves the state unchanged. -/
theorem C6_publish_zero_subscribers (b : Broker) (t : Topic) (m : Payload)
    (h : ∀ sid, b.registered t sid = false) :
    b.publish t m = .ok (b, true, []) :=
  publish_empty b t m (snapshot_nil_of_unregistered b t h)

/-- Claim C7: re-subscribing an already-registered pair overwrites the
stream handle with the new one and installs a fresh unlocked delivery
lock, leaving every other entry and lock unchanged. -/
theorem C7_subscribe_overwrite (b : Broker) (t : Topic) (sid : SubId)
    (oldCtx newCtx : Ctx) (hold : b.ctxOf t sid = some oldCtx) :
    (b.subscribe t sid newCtx).ctxOf t sid = some newCtx ∧
    dGet? (b.subscribe t sid newCtx).topic_subscribers_mutex (t, sid)
      = some false ∧
    (∀ t' sid', ¬(t' = t ∧ sid' = sid) →
      (b.subscribe t sid newCtx).ctxOf t' sid' = b.ctxOf t' sid' ∧
      (b.subscribe t sid newCtx).hasLock t' sid' = b.hasLock t' sid') := by
  refine ⟨subscribe_ctxOf_self b t sid newCtx,
    subscribe_lock_self b t sid newCtx, ?_⟩
  intro t' sid' h2
  have hne : (t', sid') ≠ (t, sid) := by
    intro he
    exact h2 ⟨congrArg Prod.fst he, congrArg Prod.snd he⟩
  refine ⟨subscribe_ctxOf_ne b t sid newCtx t' sid' h2, ?_⟩
  unfold Broker.hasLock
  rw [subscribe_lock_ne b t sid newCtx t' sid' hne]

/-- Claim C8: a fan-out pass for one topic never writes to the stream of
a subscriber registered only on a different topic — every recorded
delivery attempt carries the published topic, and never the id of a
subscriber unregistered on it. -/
theorem C8_no_cross_topic (b b' : Broker) (t1 t2 : Topic) (m : Payload)
    (sid : SubId) (succ : Bool) (evs : List SendEvent)
    (hne : t2 ≠ t1)
    (h2 : b.registered t2 sid = true)
    (h1 : b.registered t1 sid = false)
    (hp : b.publish t1 m = .ok (b', succ, evs)) :
    ∀ ev ∈ evs, ev.topic = t1 ∧ ev.sid ≠ sid := by
  have hevs := publish_ok_events b b' t1 m succ evs hp
  subst hevs
  intro ev hev
  obtain ⟨p, hpmem, rfl⟩ := List.mem_map.1 hev
  refine ⟨rfl, ?_⟩
  intro he
  have hr := snapshot_registered b t1 p hpmem
  have he' : p.1 = sid := he
  rw [he'] at hr
  rw [hr] at h1
  cases h1

/-- Claim C9: the client-side `Publisher.publish` discards the broker's
`PublishResponse` and returns Python's implicit `None`, so a caller
cannot distinguish a successful publish from a failed one. -/
theorem C9_publisher_discards_response (r1 r2 : PublishResponse) :
    Publisher.publish r1 = () ∧ Publisher.publish r1 = Publisher.publish r2 :=
  ⟨rfl, rfl⟩

/-- Claim C10: a topic key created by a subscribe is never removed:
`unsubscribe` and `remove_broken_subscribers` preserve the set of topic
keys, deleting a topic's last subscriber leaves it mapped to an empty
inner dict, and a subsequent publish to it succeeds trivially. -/
theorem C10_topic_keys_persist (b b2 : Broker) (t : Topic) (sid : SubId)
    (ctx : Ctx) (ks : List (Topic × SubId)) (m : Payload)
    (hone : dGet? b.subscribers t = some [(sid, ctx)])
    (hks : b.remove_broken_subscribers ks = .ok b2) :
    (∀ t0 s0 t', (dGet? (b.unsubscribe t0 s0).1.subscribers t').isSome
        = (dGet? b.subscribers t').isSome) ∧
    (∀ t', (dGet? b2.subscribers t').isSome = (dGet? b.subscribers t').isSome) ∧
    dGet? (b.unsubscribe t sid).1.subscribers t = some [] ∧
    (b.unsubscribe t sid).1.publish t m
      = .ok ((b.unsubscribe t sid).1, true, []) := by
  have hs : (dGet? [(sid, ctx)] sid).isSome = true := by simp [dGet?]
  have hun := unsubscribe_eq_of_found b t sid [(sid, ctx)] hone hs
  have hdel : dDel [(sid, ctx)] sid = [] := by simp [dDel]
  have hget : dGet? (b.unsubscribe t sid).1.subscribers t = some [] := by
    rw [hun]
    simp only []
    rw [hdel]
    exact dGet?_dSet_self _ _ _
  refine ⟨fun t0 s0 t' => unsubscribe_topics b t0 s0 t',
    fun t' => remove_broken_topics ks b b2 hks t', hget, ?_⟩
  apply publish_empty
  unfold Broker.snapshot
  rw [hget]
  rfl

/-- Witness for C1: a broker with a healthy subscriber 1 and a broken
subscriber 2 on topic "t"; publishing returns `success=False` and leaves
subscriber 2 unregistered. -/
theorem C1_witness :
    ((((Broker.init.subscribe "t" 1 ⟨0, false⟩).subscribe "t" 2
        ⟨1, true⟩).publish "t" "m").map
      (fun r => (r.2.1, r.1.registered "t" 2))) = .ok (false, false) := by
  obtain ⟨b', evs, hok, _, hreg⟩ := C1_publish_failure_isolation
    ((Broker.init.subscribe "t" 1 ⟨0, false⟩).subscribe "t" 2 ⟨1, true⟩)
    "t" "m" 2 ⟨1, true⟩
    (subscribe_Inv _ _ _ _ (subscribe_Inv _ _ _ _ init_Inv)) (by decide) rfl
  rw [hok]
  simp only [Except.map]
  rw [hreg]

/-- Witness for C2 (amended): evicting the single present key deletes its
entry and its lock. -/
theorem C2_witness :
    (((Broker.init.subscribe "t" 1 ⟨0, false⟩).remove_broken_subscribers
        [("t", 1)]).map
      (fun b' => (b'.registered "t" 1, b'.hasLock "t" 1))) = .ok (false, false) := by
  obtain ⟨b', h1, h2, h3⟩ := C2_remove_broken_deletes_present
    (Broker.init.subscribe "t" 1 ⟨0, false⟩) [("t", 1)]
    (subscribe_Inv _ _ _ _ init_Inv) (by decide) (by decide)
  rw [h1]
  simp only [Except.map]
  rw [h2 "t" 1, h3 "t" 1]
  rfl

/-- Witness for C3 at a one-subscriber broker. -/
theorem C3_witness :
    ∃ b' succ evs,
      (Broker.init.subscribe "t" 1 ⟨0, false⟩).publish "t" "m"
        = .ok (b', succ, evs) ∧
      (succ = false ↔ ∃ ev ∈ evs, ev.ok = false) :=
  C3_publish_success_iff (Broker.init.subscribe "t" 1 ⟨0, false⟩) "t" "m"
    (subscribe_Inv _ _ _ _ init_Inv)

/-- Witness for C4: unsubscribing a registered pair twice returns
`success=True` then `success=False`. -/
theorem C4_witness :
    ((Broker.init.subscribe "t" 1 ⟨0, false⟩).unsubscribe "t" 1).2 = true ∧
      (((Broker.init.subscribe "t" 1 ⟨0, false⟩).unsubscribe "t" 1).1.unsubscribe
        "t" 1).2 = false := by
  have h := (C4_unsubscribe_spec (Broker.init.subscribe "t" 1 ⟨0, false⟩) "t" 1
    (subscribe_Inv _ _ _ _ init_Inv).1).2 rfl
  exact ⟨h.1, h.2.2.2.2⟩

/-- Witness for C5: a register, register, deregister sequence lands in a
state where locks and registry entries agree (checked at ("u", 2)). -/
theorem C5_witness :
    (⟨[("t", []), ("u", [(2, ⟨1, true⟩)])], [(("u", 2), false)]⟩
        : Broker).registered "u" 2
      = (⟨[("t", []), ("u", [(2, ⟨1, true⟩)])], [(("u", 2), false)]⟩
        : Broker).hasLock "u" 2 :=
  C5_registry_lock_consistency
    [.register "t" 1 ⟨0, false⟩, .register "u" 2 ⟨1, true⟩, .deregister "t" 1]
    ⟨[("t", []), ("u", [(2, ⟨1, true⟩)])], [(("u", 2), false)]⟩ rfl "u" 2

/-- Witness for C6: publishing to a never-seen topic of the fresh broker
returns `success=True` with no delivery attempt and no state change. -/
theorem C6_witness :
    Broker.init.publish "news" "hi" = .ok (Broker.init, true, []) :=
  C6_publish_zero_subscribers Broker.init "news" "hi" (fun _ => rfl)

/-- Witness for C7: re-subscribing id 1 on "t" replaces handle 0 by
handle 5 and re-installs an unlocked delivery lock. -/
theorem C7_witness :
    ((Broker.init.subscribe "t" 1 ⟨0, false⟩).subscribe "t" 1 ⟨5, false⟩).ctxOf
        "t" 1 = some ⟨5, false⟩ ∧
      dGet? ((Broker.init.subscribe "t" 1 ⟨0, false⟩).subscribe "t" 1
        ⟨5, false⟩).topic_subscribers_mutex ("t", 1) = some false := by
  have h := C7_subscribe_overwrite (Broker.init.subscribe "t" 1 ⟨0, false⟩)
    "t" 1 ⟨0, false⟩ ⟨5, false⟩ rfl
  exact ⟨h.1, h.2.1⟩

/-- Witness for C8: with id 1 on "a" and id 2 only on "b", the single
delivery attempt of a publish to "a" targets "a" and not id 2. -/
theorem C8_witness :
    (⟨"a", 1, "m", true⟩ : SendEvent).topic = "a" ∧
      (⟨"a", 1, "m", true⟩ : SendEvent).sid ≠ 2 := by
  have h := C8_no_cross_topic
    ((Broker.init.subscribe "a" 1 ⟨0, false⟩).subscribe "b" 2 ⟨1, false⟩)
    ((Broker.init.subscribe "a" 1 ⟨0, false⟩).subscribe "b" 2 ⟨1, false⟩)
    "a" "b" "m" 2 true [⟨"a", 1, "m", true⟩]
    (by decide) rfl rfl rfl
  exact h ⟨"a", 1, "m", true⟩ (List.mem_singleton_self _)

/-- Witness for C10: removing the only subscriber of "t" leaves the topic
mapped to an empty inner dict, and a later publish succeeds trivially. -/
theorem C10_witness :
    dGet? ((Broker.init.subscribe "t" 7 ⟨0, false⟩).unsubscribe
        "t" 7).1.subscribers "t" = some [] ∧
      ((Broker.init.subscribe "t" 7 ⟨0, false⟩).unsubscribe "t" 7).1.publish
          "t" "x"
        = .ok (((Broker.init.subscribe "t" 7 ⟨0, false⟩).unsubscribe "t" 7).1,
            true, []) := by
  have h := C10_topic_keys_persist (Broker.init.subscribe "t" 7 ⟨0, false⟩)
    ⟨[("t", [])], []⟩ "t" 7 ⟨0, false⟩ [("t", 7)] "x" rfl rfl
  exact ⟨h.2.2.1, h.2.2.2⟩

end PubSub
